import Mathlib

/-!
Shallow embedding of `src/scraper.py` (job-scrape automation pipeline).

Python strings are modelled as Lean `String` / `List Char`; Python's `None`
for an absent value is modelled with `Option`.  Character classes (`\s`,
`\w`, `\d`, `[A-Za-z]`) are modelled at the ASCII level, which is the range
the specification and the data in this repository exercise.  The parsed
HTML produced by BeautifulSoup is modelled as a tree of nodes (`Node`);
`find` / `find_all` become pre-order traversals exactly as BeautifulSoup
performs them.  Effectful plumbing (HTTP, file I/O) is modelled by passing
the file content / call outcomes as explicit parameters.
-/

namespace Scraper

/-! ### Python string primitives -/

/-- Characters matched by Python's `\s` on ASCII text (`str.strip` and
`re.sub(r"\s+", ...)` whitespace). -/
def wsChar (c : Char) : Bool :=
  c = ' ' || c = '\t' || c = '\n' || c = '\r' || c = '\x0b' || c = '\x0c'

/-- Python `str.strip`: drop leading and trailing whitespace. -/
def pyStrip (l : List Char) : List Char :=
  ((l.dropWhile wsChar).reverse.dropWhile wsChar).reverse

/-- Helper for `re.sub(r"\s+", " ", s)`: the flag records whether the
previous character was whitespace (in which case further whitespace is
absorbed into the single space already emitted). -/
def collapseWsGo : Bool → List Char → List Char
  | _, [] => []
  | prevWs, c :: rest =>
      if wsChar c then
        if prevWs then collapseWsGo true rest
        else ' ' :: collapseWsGo true rest
      else c :: collapseWsGo false rest

/-- Python `re.sub(r"\s+", " ", s or "").strip()` (`normalize_whitespace`). -/
def normalize_whitespace (l : List Char) : List Char :=
  pyStrip (collapseWsGo false l)

/-- Fuel-indexed worker for Python `str.replace`: left-to-right,
non-overlapping, the replacement text is not rescanned.  The fuel is the
length of the input, which suffices because each step consumes at least one
character of the input when the pattern is nonempty. -/
def replaceAllGo (pat rep : List Char) : Nat → List Char → List Char
  | _, [] => []
  | 0, l => l
  | fuel + 1, c :: rest =>
      if pat.isPrefixOf (c :: rest) then
        rep ++ replaceAllGo pat rep fuel ((c :: rest).drop pat.length)
      else c :: replaceAllGo pat rep fuel rest

/-- Python `str.replace(pat, rep)` for a nonempty pattern. -/
def replaceAll (pat rep l : List Char) : List Char :=
  if pat.isEmpty then l else replaceAllGo pat rep l.length l

/-- Python `str.find(pat, start)` returning `none` instead of `-1`:
the least index `i ≥ start` at which `pat` occurs in `l`. -/
def indexFrom (l pat : List Char) (start : Nat) : Option Nat :=
  ((List.range (l.length + 1)).filter
    (fun i => start ≤ i && pat.isPrefixOf (l.drop i))).head?

/-! ### Age normalizer (`parse_age_to_days`, scraper.py lines 78–115) -/

/-- ASCII letter or digit, the characters kept by
`re.sub(r"[^\dA-Za-z]", "", s)`. -/
def alnumChar (c : Char) : Bool := c.isDigit || c.isAlpha

/-- The chain of `str.replace` calls normalizing unit spellings, in the
exact order the source applies them: months, month, weeks, week, days,
day, hours, hour, hrs, hr. -/
def normalizeUnits (l : List Char) : List Char :=
  replaceAll "hr".data "h".data
    (replaceAll "hrs".data "h".data
      (replaceAll "hour".data "h".data
        (replaceAll "hours".data "h".data
          (replaceAll "day".data "d".data
            (replaceAll "days".data "d".data
              (replaceAll "week".data "w".data
                (replaceAll "weeks".data "w".data
                  (replaceAll "month".data "mo".data
                    (replaceAll "months".data "mo".data l)))))))))

/-- Value of a digit string (`int(m.group(1))`). -/
def digitsToNat (l : List Char) : Nat :=
  l.foldl (fun n c => n * 10 + (c.toNat - '0'.toNat)) 0

/-- The regex `^(\d+)(mo|w|d|h)$`: one or more digits followed by exactly
one canonical unit token and nothing else.  Returns the quantity and the
unit on a full match. -/
def matchAge (l : List Char) : Option (Nat × List Char) :=
  let ds := l.takeWhile Char.isDigit
  let rest := l.dropWhile Char.isDigit
  if ds.isEmpty then none
  else if rest = "mo".data || rest = "w".data || rest = "d".data || rest = "h".data then
    some (digitsToNat ds, rest)
  else none

/-- Conversion ratios of the source: hours round down to 0 days, days are
kept, weeks are ×7, months are ×30. -/
def unitToDays (qty : Nat) (unit : List Char) : Nat :=
  if unit = "h".data then 0
  else if unit = "d".data then qty
  else if unit = "w".data then qty * 7
  else qty * 30

/-- The normalized key of an age string: stripped, lowercased, cleared of
non-alphanumerics, unit spellings normalized — the string the regex of
`parse_age_to_days` is matched against. -/
def ageKey (age_str : String) : List Char :=
  normalizeUnits (((pyStrip age_str.data).map Char.toLower).filter alnumChar)

/-- `parse_age_to_days` from scraper.py: empty input yields `"0d"`; a
non-match of `^(\d+)(mo|w|d|h)$` on the normalized key yields `"0d"`, and
a match is converted by the fixed ratios and rendered as `"{days}d"`. -/
def parse_age_to_days (age_str : String) : String :=
  if age_str = "" then "0d"
  else
    match matchAge (ageKey age_str) with
    | none => "0d"
    | some (qty, unit) => Nat.repr (unitToDays qty unit) ++ "d"

/-! ### Location classifier (`looks_like_nyc`, scraper.py lines 15–26, 70–76) -/

/-- Regex `\w` on ASCII text: letters, digits and underscore. -/
def wordChar (c : Char) : Bool := c.isAlphanum || c = '_'

/-- Whether position `j` of `l` holds a word character (out-of-range
positions count as non-word, matching the regex behaviour at the ends of
the text). -/
def wordAt (l : List Char) (j : Nat) : Bool :=
  match l.drop j with
  | [] => false
  | c :: _ => wordChar c

/-- Regex `\b` at position `i`: a word boundary separates a word character
from a non-word character (or from the edge of the text). -/
def boundaryAt (l : List Char) (i : Nat) : Bool :=
  (if i = 0 then false else wordAt l (i - 1)) != wordAt l i

/-- Case-insensitive literal match of `lit` (given lowercased) at
position `i` of `l` (`re.I`). -/
def litAtCI (lit l : List Char) (i : Nat) : Bool :=
  ((l.drop i).take lit.length).map Char.toLower = lit

/-- Match of the regex `\b<lit>\b` (case-insensitive) at position `i`. -/
def wordLitAt (lit l : List Char) (i : Nat) : Bool :=
  boundaryAt l i && litAtCI lit l i && boundaryAt l (i + lit.length)

/-- `re.search` of `\b<lit>\b` (case-insensitive): a match at some
position of the text. -/
def wordSearch (lit l : List Char) : Bool :=
  (List.range (l.length + 1)).any (fun i => wordLitAt lit l i)

/-- Match at position `i` of the pattern written `r"\nyc\b"` in the
source: in a raw string `\n` is a regex newline escape, so this pattern
is a literal newline followed by `yc` and a word boundary — not
`\bnyc\b`. -/
def newlineYcAt (l : List Char) (i : Nat) : Bool :=
  litAtCI "\nyc".data l i && boundaryAt l (i + 3)

/-- `re.search` of the `r"\nyc\b"` pattern. -/
def newlineYcSearch (l : List Char) : Bool :=
  (List.range (l.length + 1)).any (fun i => newlineYcAt l i)

/-- Match at position `i` of `\bNew York[, ]+NY\b` (case-insensitive).
Since `n` is not in the class `[, ]`, the greedy maximal munch of the
class is equivalent to the backtracking semantics of the regex. -/
def newYorkNYAt (l : List Char) (i : Nat) : Bool :=
  let j := i + 8
  let k := ((l.drop j).takeWhile (fun c => c = ',' || c = ' ')).length
  boundaryAt l i && litAtCI "new york".data l i && decide (1 ≤ k) &&
    litAtCI "ny".data l (j + k) && boundaryAt l (j + k + 2)

/-- `re.search` of `\bNew York[, ]+NY\b` (case-insensitive). -/
def newYorkNYSearch (l : List Char) : Bool :=
  (List.range (l.length + 1)).any (fun i => newYorkNYAt l i)

/-- `looks_like_nyc` from scraper.py: empty text is rejected up front,
otherwise the ten `NYC_PATTERNS` are searched case-insensitively in
order and any match accepts. -/
def looks_like_nyc (text : String) : Bool :=
  if text = "" then false
  else
    let l := text.data
    wordSearch "nyc".data l || wordSearch "ny".data l || newlineYcSearch l ||
      wordSearch "new york".data l || newYorkNYSearch l ||
      wordSearch "manhattan".data l || wordSearch "brooklyn".data l ||
      wordSearch "queens".data l || wordSearch "bronx".data l ||
      wordSearch "staten island".data l

/-- The literal region markers named by the specification (lowercased):
full name, abbreviations and borough names.  A string "contains a marker
case-insensitively" when one of these is an infix of its lowercasing. -/
def nycMarkers : List (List Char) :=
  ["nyc".data, "ny".data, "new york".data, "manhattan".data,
    "brooklyn".data, "queens".data, "bronx".data, "staten island".data]

/-- Case-insensitive substring containment of some marker, the reading of
"contains any of the listed literal region markers" in the claim. -/
def containsMarkerCI (l : List Char) : Bool :=
  nycMarkers.any (fun m =>
    (List.range (l.length + 1)).any (fun i => m.isPrefixOf ((l.map Char.toLower).drop i)))

/-! ### Parsed HTML model

BeautifulSoup's parsed document is modelled as a tree: an element with a
tag name, an attribute list and children, or a text node.  A parsed
fragment is a forest (the top-level nodes).  `find` / `find_all` are
pre-order (document-order) traversals over descendants, exactly as
BeautifulSoup evaluates them. -/

inductive Node where
  | text (s : String) : Node
  | elem (tag : String) (attrs : List (String × String)) (children : List Node) : Node

/-- Children of a node (a text node has none). -/
def Node.childList : Node → List Node
  | .text _ => []
  | .elem _ _ cs => cs

mutual

/-- All elements with the given tag in the subtree rooted at a node,
the node itself included, in document order (`find_all`). -/
def allTags (tag : String) : Node → List Node
  | .text _ => []
  | .elem t a cs =>
      (if t = tag then [Node.elem t a cs] else []) ++ allTagsList tag cs

/-- All elements with the given tag in a forest, in document order. -/
def allTagsList (tag : String) : List Node → List Node
  | [] => []
  | c :: cs => allTags tag c ++ allTagsList tag cs

end

mutual

/-- First element with the given tag in the subtree rooted at a node,
the node itself included (`find`). -/
def findTag (tag : String) : Node → Option Node
  | .text _ => none
  | .elem t a cs => if t = tag then some (.elem t a cs) else findTagList tag cs

/-- First element with the given tag in a forest, in document order. -/
def findTagList (tag : String) : List Node → Option Node
  | [] => none
  | c :: cs =>
      match findTag tag c with
      | some r => some r
      | none => findTagList tag cs

end

mutual

/-- First `href` value of an `<a>` element carrying an `href` attribute in
the subtree rooted at a node, the node itself included
(`find("a", href=True)`). -/
def findHref : Node → Option String
  | .text _ => none
  | .elem t a cs =>
      if t = "a" then
        match a.lookup "href" with
        | some v => some v
        | none => findHrefList cs
      else findHrefList cs

/-- First `href` of an anchor in a forest, in document order. -/
def findHrefList : List Node → Option String
  | [] => none
  | c :: cs =>
      match findHref c with
      | some r => some r
      | none => findHrefList cs

end

mutual

/-- Text fragments of a subtree after every `<br>` has been replaced with
the text `" | "` (the `td.find_all("br")` / `replace_with` loop of
`td_text`), in document order. -/
def textFrags : Node → List String
  | .text s => [s]
  | .elem t _ cs => if t = "br" then [" | "] else textFragsList cs

/-- Text fragments of a forest, in document order. -/
def textFragsList : List Node → List String
  | [] => []
  | c :: cs => textFrags c ++ textFragsList cs

end

/-- `td_text` from scraper.py: `get_text(" ", strip=True)` joins the
individually stripped, nonempty text fragments with a single space, and
the result is passed through `normalize_whitespace`. -/
def td_text (td : Node) : String :=
  ⟨normalize_whitespace
    (String.intercalate " "
      (((textFrags td).map (fun s => (⟨pyStrip s.data⟩ : String))).filter
        (fun s => s ≠ ""))).data⟩

/-- `first_href` from scraper.py: `href` of the first anchor found inside
the cell, stripped; `none` when the cell has no anchor. -/
def first_href (td : Node) : Option String :=
  (findHrefList td.childList).map (fun v => (⟨pyStrip v.data⟩ : String))

/-! ### Table extraction (scraper.py lines 128–163) -/

mutual

/-- Every `<table>` of a subtree paired with the list of ancestor tag
names it sits under (innermost first), in document order.  This is the
information `soup.find_all("table")` plus `table.parents` inspects. -/
def tablesWithAnc (anc : List String) : Node → List (List String × Node)
  | .text _ => []
  | .elem t a cs =>
      (if t = "table" then [(anc, Node.elem t a cs)] else []) ++
        tablesWithAncList (t :: anc) cs

/-- Tables of a forest paired with their ancestor tag lists. -/
def tablesWithAncList (anc : List String) : List Node → List (List String × Node)
  | [] => []
  | c :: cs => tablesWithAnc anc c ++ tablesWithAncList anc cs

end

/-- `extract_active_tables` from scraper.py, on an already-parsed
fragment: every table none of whose ancestors is a `<details>` element,
in document order. -/
def extract_active_tables (doc : List Node) : List Node :=
  (tablesWithAncList [] doc).filterMap
    (fun p => if p.1.contains "details" then none else some p.2)

/-- A row record as built by `extract_jobs_from_tables` (the Python dict
with keys company, title, url, location, age, age_days). -/
structure Job where
  company : String
  title : String
  url : Option String
  location : String
  age : String
  age_days : String
deriving DecidableEq, Repr

/-- Builds the record of one `<tr>`: its first five `<td>` descendants map
positionally to company, role, location, application link and age; a row
with fewer than five cells is skipped (`none`). -/
def rowJob (tr : Node) : Option Job :=
  match allTagsList "td" tr.childList with
  | c0 :: c1 :: c2 :: c3 :: c4 :: _ =>
      let company := ⟨pyStrip (replaceAll "â†³".data "".data (td_text c0).data)⟩
      let role := td_text c1
      let location := ⟨replaceAll "|".data ",".data (td_text c2).data⟩
      let apply_link := first_href c3
      let age := td_text c4
      some
        { company := company
          title := role
          url := apply_link
          location := location
          age := age
          age_days := parse_age_to_days age }
  | _ => none

/-- Rows contributed by one qualifying table: the `<tr>` descendants of
the table's first `<tbody>` descendant, or nothing when the table has no
`<tbody>`. -/
def tableRows (table : Node) : List Node :=
  match findTagList "tbody" table.childList with
  | none => []
  | some tb => allTagsList "tr" tb.childList

/-- `extract_jobs_from_tables` from scraper.py, on an already-parsed
fragment: for each active table, each row of its `<tbody>` with at least
five cells yields one record. -/
def extract_jobs_from_tables (doc : List Node) : List Job :=
  ((extract_active_tables doc).map (fun t => (tableRows t).filterMap rowJob)).flatten

/-- A five-cell row with plain text cells and a link cell. -/
def demoRow (company title loc link age : String) : Node :=
  .elem "tr" []
    [.elem "td" [] [.text company],
     .elem "td" [] [.text title],
     .elem "td" [] [.text loc],
     .elem "td" [] [.elem "a" [("href", link)] [.text "Apply"]],
     .elem "td" [] [.text age]]

/-- A table holding the given rows in a `<tbody>`. -/
def demoTable (rows : List Node) : Node :=
  .elem "table" [] [.elem "thead" [] [], .elem "tbody" [] rows]

/-! ### Section slicer (`slice_sections`, scraper.py lines 28–32, 47–56)

The marker strings are copied byte-for-byte from the source file, whose
emoji are stored in a double-encoded form. -/

/-- The fixed ordered `SECTION_MARKERS` list. -/
def SECTION_MARKERS : List String :=
  ["## ðŸ’» Software Engineering New Grad Roles",
   "## ðŸ“± Product Management New Grad Roles",
   "## ðŸ¤– Data Science, AI & Machine Learning New Grad Roles"]

/-- Section of one marker per the loop body of `slice_sections`: `none`
when the marker does not occur; otherwise the text from the marker's
first occurrence up to (but not including) the next occurrence of
`"\n## "` searched from `start + 3`, or to end of document if none
follows. -/
def sectionFor (md : List Char) (marker : String) : Option (List Char) :=
  match indexFrom md marker.data 0 with
  | none => none
  | some start =>
      match indexFrom md "\n## ".data (start + 3) with
      | none => some (md.drop start)
      | some nextIdx => some ((md.take nextIdx).drop start)

/-- `slice_sections` from scraper.py: the found sections, in marker-list
order, joined with a blank line. -/
def slice_sections (md_text : String) : String :=
  String.intercalate "\n\n"
    ((SECTION_MARKERS.filterMap (sectionFor md_text.data)).map
      (fun l => (⟨l⟩ : String)))

/-! ### Dedup ledger (`load_seen` / `save_seen`, scraper.py lines 118–126)

The ledger file is modelled as `Option (List String)`: `none` when
`seen.json` does not exist, `some l` when it holds the JSON array `l`.
The in-memory set is a `Finset String`. -/

/-- `load_seen`: the set of the stored array, or the empty set when the
file is missing. -/
def load_seen (file : Option (List String)) : Finset String :=
  match file with
  | none => ∅
  | some l => l.toFinset

/-- `save_seen`: the file content written, `json.dump(sorted(list(seen)))`
— the elements of the set in sorted order. -/
def save_seen (seen : Finset String) : List String :=
  seen.sort (· ≤ ·)

/-! ### Publish flow (`main`, scraper.py lines 312–351)

The outcome of each external call is passed in as a parameter:
`createOk j` tells whether `notion_create_page` succeeds on `j` (on
failure it raises and the exception propagates out of `main`);
`notifyOk j` tells whether the Slack post succeeds, but `notify` swallows
every failure, so it cannot influence the run. -/

/-- The filter loop of `main`: keep a record when its url is present and
nonempty (Python truthiness of `job.get("url")`), not already in the
ledger, and its location passes `looks_like_nyc`. -/
def selectJobs (seen : Finset String) (jobs : List Job) : List Job :=
  jobs.filter (fun j =>
    match j.url with
    | none => false
    | some u => !(u = "") && !(decide (u ∈ seen)) && looks_like_nyc j.location)

/-- The publish loop over `new_items`: on success the url is added to the
in-memory set and the loop continues; on a failing create call
`notion_create_page` raises before `seen.add`, so the loop stops with the
set as it was and the abort flag set. -/
def publishLoop (createOk : Job → Bool) : Finset String → List Job → Finset String × Bool
  | seen, [] => (seen, false)
  | seen, j :: rest =>
      if createOk j then publishLoop createOk (insert (j.url.getD "") seen) rest
      else (seen, true)

/-- The records actually published before the run ended: the longest
prefix of the publish list on which every create call succeeds. -/
def publishedPrefix (createOk : Job → Bool) : List Job → List Job
  | [] => []
  | j :: rest => if createOk j then j :: publishedPrefix createOk rest else []

/-- The publish flow of `main` on an already-extracted record list,
returning the ledger file content at process end: when every create call
succeeds the updated set is saved once after the loop; when a create call
raises partway, the exception propagates and the file is left as it was.
`notifyOk` is accepted and ignored, because `notify` catches and discards
every failure. -/
def runPublishFlow (file : Option (List String)) (jobsAll : List Job)
    (createOk _notifyOk : Job → Bool) : Option (List String) :=
  let seen0 := load_seen file
  let items := selectJobs seen0 jobsAll
  let r := publishLoop createOk seen0 items
  if r.2 then file else some (save_seen r.1)

/-! ### Age-refresh flow (scraper.py lines 244–302)

A remote record ("page") carries its identifier, its stored
`Source Link` property (absent, or a property with a `type` string and an
optional url) and its `Age` text.  `updateOk pid` tells whether the
update call for page `pid` succeeds (`update_notion_page_age` catches its
own errors and returns a boolean, so failures do not abort the run). -/

structure NotionPage where
  id : String
  sourceLink : Option (String × Option String)
  age : String
deriving DecidableEq, Repr

/-- The guards at the top of the page loop: the `Source Link` property
must be present with `type = "url"` and a non-falsy url, otherwise the
page is silently skipped. -/
def pageSourceUrl (p : NotionPage) : Option String :=
  match p.sourceLink with
  | none => none
  | some (ty, u) =>
      if ty = "url" then
        match u with
        | none => none
        | some v => if v = "" then none else some v
      else none

/-- `find_matching_github_job`: the first extracted record whose url
equals the stored source url. -/
def find_matching_github_job (source_url : String) (github_jobs : List Job) : Option Job :=
  github_jobs.find? (fun j => j.url == some source_url)

/-- Outcome of one page of the refresh loop. -/
inductive PageResult where
  | skip
  | updated (newAge : String)
  | notFound
  | errored
deriving DecidableEq, Repr

/-- One iteration of the `update_all_pages_age` loop: skip pages without
a usable source link; count pages whose link matches no current record as
not-found; otherwise attempt the update with the matching record's
`age_days` and record success or error. -/
def classifyPage (github_jobs : List Job) (updateOk : String → Bool)
    (p : NotionPage) : PageResult :=
  match pageSourceUrl p with
  | none => .skip
  | some u =>
      match find_matching_github_job u github_jobs with
      | none => .notFound
      | some j =>
          if updateOk p.id then .updated j.age_days else .errored

/-- The page after the refresh loop: its age is overwritten exactly when
its update succeeded. -/
def refreshPage (github_jobs : List Job) (updateOk : String → Bool)
    (p : NotionPage) : NotionPage :=
  match classifyPage github_jobs updateOk p with
  | .updated a => { p with age := a }
  | _ => p

/-- `update_all_pages_age` on already-fetched pages and already-extracted
records: the refreshed pages together with the reported counts
(updated, not-found, error). -/
def update_all_pages_age (pages : List NotionPage) (github_jobs : List Job)
    (updateOk : String → Bool) : List NotionPage × Nat × Nat × Nat :=
  (pages.map (refreshPage github_jobs updateOk),
    pages.countP (fun p =>
      match classifyPage github_jobs updateOk p with
      | .updated _ => true
      | _ => false),
    pages.countP (fun p => classifyPage github_jobs updateOk p == .notFound),
    pages.countP (fun p => classifyPage github_jobs updateOk p == .errored))

/-! ### Spec-side definitions and concrete fixtures

`selectJobsSpec` follows the words of the specification's publish-filter
description, which — unlike the source — also skips a record whose title
carries a disqualifying degree-program marker (`disq`).  It is compared
against `selectJobs`, the filter translated from the source. -/

/-- The publish filter as the specification words it: skip if no link,
skip if the url is already in the ledger, skip if the title carries a
disqualifying marker, keep only classifier matches. -/
def selectJobsSpec (disq : String → Bool) (seen : Finset String) (jobs : List Job) : List Job :=
  jobs.filter (fun j =>
    match j.url with
    | none => false
    | some u => !(u = "") && !(decide (u ∈ seen)) && !(disq j.title) && looks_like_nyc j.location)

/-- A record whose title carries a degree-program marker but which passes
every filter the source actually applies. -/
def phdJob : Job :=
  { company := "Acme", title := "PhD Student Researcher",
    url := some "https://jobs.example/phd", location := "New York, NY",
    age := "3d", age_days := "3d" }

/-- A record with no anchor in its link cell. -/
def noUrlJob : Job :=
  { company := "Acme", title := "SWE", url := none,
    location := "New York, NY", age := "3d", age_days := "3d" }

/-- First record of the partial-run scenario: its create call succeeds. -/
def c1job1 : Job :=
  { company := "A", title := "T1", url := some "u1", location := "nyc",
    age := "1d", age_days := "1d" }

/-- Second record of the partial-run scenario: its create call fails. -/
def c1job2 : Job :=
  { company := "B", title := "T2", url := some "u2", location := "nyc",
    age := "2d", age_days := "2d" }

/-- Create-call outcome of the partial-run scenario: the first record's
create succeeds, the second raises. -/
def c1createOk (j : Job) : Bool := j.url == some "u1"

/-- A table whose only `<tbody>` sits inside its `<thead>`; its row is
nevertheless extracted, because `find("tbody")` searches all
descendants. -/
def theadTbodyTable : Node :=
  .elem "table" []
    [.elem "thead" []
      [.elem "tbody" [] [demoRow "Acme" "SWE" "New York, NY" "https://x" "3d"]]]

/-- A fragment with one table inside a `<details>` element and one
outside it. -/
def c5demoDoc : List Node :=
  [Node.elem "details" [] [demoTable []], demoTable []]

/-- A remote record pointing at the source url `https://x` with a stale
age. -/
def c8page : NotionPage :=
  { id := "pid1", sourceLink := some ("url", some "https://x"), age := "9d" }

/-- The current row record sharing that url, with a fresh age. -/
def c8job : Job :=
  { company := "Acme", title := "SWE", url := some "https://x",
    location := "New York, NY", age := "3d", age_days := "3d" }

/-! ## Sanity examples -/

example : parse_age_to_days "2w" = "14d" := by decide
example : parse_age_to_days "1mo" = "30d" := by decide
example : parse_age_to_days "23h" = "0d" := by decide
example : parse_age_to_days "5d" = "5d" := by decide
example : parse_age_to_days " 12 D " = "12d" := by decide
example : parse_age_to_days "3 weeks" = "21d" := by decide
example : parse_age_to_days "junk" = "0d" := by decide

example : looks_like_nyc "New York, NY" = true := by decide
example : looks_like_nyc "Brooklyn, NY" = true := by decide
example : looks_like_nyc "Austin, TX" = false := by decide
example : looks_like_nyc "Anyc" = false := by decide

example :
    extract_jobs_from_tables
      [demoTable [demoRow "Acme" "SWE Intern" "New York, NY" "https://x" "3d"]] =
      [{ company := "Acme", title := "SWE Intern", url := some "https://x",
         location := "New York, NY", age := "3d", age_days := "3d" }] := by decide

example :
    extract_jobs_from_tables
      [Node.elem "details" [] [demoTable [demoRow "A" "B" "C" "u" "1d"]]] = [] := by
  decide

example :
    extract_jobs_from_tables
      [demoTable [Node.elem "tr" [] [Node.elem "td" [] [Node.text "only one cell"]]]] =
      [] := by decide

example : slice_sections "no markers here at all" = "" := by decide

/-! ## Claim theorems -/

/-- C3: `parse_age_to_days` is a total, deterministic function on strings
(it is a Lean function, so totality and determinism are inherent in the
embedding); every output has the form `"<N>d"` for a natural number `N`;
empty input and every input whose normalized key fails the
digits-then-unit match yield `"0d"`; a matching key converts by the fixed
ratios h→0, d→unchanged, w→×7, mo→×30; and the spec's concrete examples
`"2w"→"14d"`, `"1mo"→"30d"`, `"23h"→"0d"`, `"5d"→"5d"` hold. -/
theorem c3_parse_age_total_and_correct :
    (∀ s : String, ∃ n : Nat, parse_age_to_days s = Nat.repr n ++ "d")
    ∧ parse_age_to_days "" = "0d"
    ∧ (∀ s : String, matchAge (ageKey s) = none → parse_age_to_days s = "0d")
    ∧ (∀ (s : String) (qty : Nat) (unit : List Char), s ≠ "" →
        matchAge (ageKey s) = some (qty, unit) →
        parse_age_to_days s = Nat.repr (unitToDays qty unit) ++ "d")
    ∧ (∀ q : Nat, unitToDays q "h".data = 0 ∧ unitToDays q "d".data = q ∧
        unitToDays q "w".data = q * 7 ∧ unitToDays q "mo".data = q * 30)
    ∧ parse_age_to_days "2w" = "14d" ∧ parse_age_to_days "1mo" = "30d"
    ∧ parse_age_to_days "23h" = "0d" ∧ parse_age_to_days "5d" = "5d" := by
  refine ⟨?_, by decide, ?_, ?_, ?_, by decide, by decide, by decide, by decide⟩
  · intro s
    by_cases h : s = ""
    · exact ⟨0, by rw [parse_age_to_days, if_pos h]; rfl⟩
    · rcases hm : matchAge (ageKey s) with _ | ⟨qty, unit⟩
      · exact ⟨0, by rw [parse_age_to_days, if_neg h, hm]; rfl⟩
      · exact ⟨unitToDays qty unit, by rw [parse_age_to_days, if_neg h, hm]⟩
  · intro s hm
    by_cases h : s = ""
    · rw [parse_age_to_days, if_pos h]
    · rw [parse_age_to_days, if_neg h, hm]
  · intro s qty unit h hm
    rw [parse_age_to_days, if_neg h, hm]
  · intro q
    exact ⟨rfl, rfl, rfl, rfl⟩

/-- Witness for C3: the malformed input `"junk"` has a non-matching key
and is mapped to `"0d"` by the theorem's no-match clause. -/
theorem c3_witness : parse_age_to_days "junk" = "0d" :=
  c3_parse_age_total_and_correct.2.2.1 "junk" (by decide)

/-- C4 counterexample: `"SUNY"` contains the listed marker `"NY"`
case-insensitively, yet `looks_like_nyc` returns `false` on it — the
source matches its markers with regex word boundaries, not by substring
containment. -/
theorem c4_counterexample :
    containsMarkerCI "SUNY".data = true ∧ looks_like_nyc "SUNY" = false := by
  decide

/-- C4 (amended): `looks_like_nyc` returns true for every nonempty string
in which one of the region markers occurs delimited by word boundaries;
it returns false for the empty string; a string containing a marker only
inside a longer word can return false (`"SUNY"`); and the pattern written
`r"\nyc\b"` (a regex newline, not `\b`) additionally accepts strings that
contain a newline followed by `yc` at a word end even though they contain
no marker. -/
theorem c4_looks_like_nyc_boundary :
    (∀ s : String, s ≠ "" → ∀ m ∈ nycMarkers, wordSearch m s.data = true →
        looks_like_nyc s = true)
    ∧ looks_like_nyc "" = false
    ∧ looks_like_nyc "SUNY" = false
    ∧ looks_like_nyc "\nyc" = true
    ∧ containsMarkerCI "\nyc".data = false := by
  refine ⟨?_, by decide, by decide, by decide, by decide⟩
  intro s hs m hm hsearch
  simp only [nycMarkers, List.mem_cons, List.not_mem_nil, or_false] at hm
  rw [looks_like_nyc, if_neg hs]
  rcases hm with rfl | rfl | rfl | rfl | rfl | rfl | rfl | rfl <;>
    simp [hsearch]

/-- Witness for C4 (amended): `"Brooklyn, NY"` holds the marker
`"brooklyn"` as a delimited word, so the classifier accepts it. -/
theorem c4_witness : looks_like_nyc "Brooklyn, NY" = true :=
  c4_looks_like_nyc_boundary.1 "Brooklyn, NY" (by decide) "brooklyn".data
    (by decide) (by decide)

/-- C5: every table returned by `extract_active_tables` occurs in the
document with an ancestor chain free of `details`: no table nested inside
a collapsible details container is ever returned. -/
theorem c5_active_tables_not_in_details :
    ∀ (doc : List Node) (t : Node), t ∈ extract_active_tables doc →
      ∃ anc, (anc, t) ∈ tablesWithAncList [] doc ∧ "details" ∉ anc := by
  intro doc t ht
  rw [extract_active_tables] at ht
  obtain ⟨⟨anc, t'⟩, hmem, heq⟩ := List.mem_filterMap.mp ht
  simp at heq
  obtain ⟨hnd, rfl⟩ := heq
  exact ⟨anc, hmem, hnd⟩

/-- Witness for C5: in a fragment with one table inside `<details>` and
one outside, the returned outside table has a details-free ancestor
chain. -/
theorem c5_witness :
    ∃ anc, (anc, demoTable []) ∈ tablesWithAncList [] c5demoDoc ∧ "details" ∉ anc :=
  c5_active_tables_not_in_details c5demoDoc (demoTable []) (List.Mem.head _)

/-- C9: a body row with fewer than five `<td>` cells produces no record
(the extraction never fails on such a row: `rowJob` is a total Lean
function and returns `none` there), and the whole extraction is the
`rowJob`-filter over the body rows of the active tables, so skipped rows
contribute nothing. -/
theorem c9_short_rows_skipped :
    (∀ tr : Node, (allTagsList "td" tr.childList).length < 5 → rowJob tr = none)
    ∧ (∀ doc : List Node,
        extract_jobs_from_tables doc =
          ((extract_active_tables doc).map tableRows).flatten.filterMap rowJob) := by
  constructor
  · intro tr h
    rw [rowJob]
    split
    · rename_i c0 c1 c2 c3 c4 rest heq
      rw [heq] at h
      simp at h
      omega
    · rfl
  · intro doc
    rw [extract_jobs_from_tables]
    induction extract_active_tables doc with
    | nil => rfl
    | cons t ts ih =>
        simp only [List.map_cons, List.flatten_cons, List.filterMap_append, ih]

/-- Witness for C9: a row holding a single cell yields no record. -/
theorem c9_witness :
    rowJob (Node.elem "tr" [] [Node.elem "td" [] [Node.text "only one cell"]]) = none :=
  c9_short_rows_skipped.1 _ (by decide)

/-- C10 counterexample: in a table whose only `<tbody>` sits inside its
`<thead>`, the row inside the `<thead>` IS extracted — `table.find("tbody")`
searches all descendants, so "rows inside `<thead>` are never extracted"
fails on this fragment. -/
theorem c10_counterexample :
    extract_jobs_from_tables [theadTbodyTable] =
      [{ company := "Acme", title := "SWE", url := some "https://x",
         location := "New York, NY", age := "3d", age_days := "3d" }] := by
  decide

/-- C10 (amended): a qualifying table with no `<tbody>` descendant
contributes zero postings, and extraction maps exactly over the `<tr>`
elements inside the table's first `<tbody>` descendant — so rows placed
directly under `<table>` are never extracted, while a row inside a
`<thead>` is extracted in the degenerate case where the table's first
`<tbody>` lies inside that `<thead>`. -/
theorem c10_tbody_only :
    (∀ table : Node, findTagList "tbody" table.childList = none →
        (tableRows table).filterMap rowJob = [])
    ∧ (∀ table tb : Node, findTagList "tbody" table.childList = some tb →
        tableRows table = allTagsList "tr" tb.childList)
    ∧ (∀ doc : List Node, extract_jobs_from_tables doc =
        ((extract_active_tables doc).map (fun t => (tableRows t).filterMap rowJob)).flatten) := by
  refine ⟨?_, ?_, fun _ => rfl⟩
  · intro table h
    rw [tableRows, h]
    rfl
  · intro table tb h
    rw [tableRows, h]

/-- Witness for C10 (amended): a table holding a bare row but no
`<tbody>` contributes no record. -/
theorem c10_witness :
    (tableRows (Node.elem "table" [] [Node.elem "tr" [] []])).filterMap rowJob = [] :=
  c10_tbody_only.1 _ rfl

/-- C6: `slice_sections` is the blank-line-separated concatenation, in
marker-list order, of the section of each found header (`sectionFor`),
where a found header's section runs from the header's first occurrence up
to but not including the next `"\n## "` occurrence searched from three
characters past the header start, or to end of document; markers that do
not occur are silently skipped, so the result is empty when no marker
occurs; and on a concrete document the section is cut exactly before the
next top-level header. -/
theorem c6_slice_sections_sound :
    (∀ md : String, slice_sections md =
        String.intercalate "\n\n"
          ((SECTION_MARKERS.filterMap (sectionFor md.data)).map (fun l => (⟨l⟩ : String))))
    ∧ (∀ (md : String) (m : String), m ∈ SECTION_MARKERS →
        indexFrom md.data m.data 0 = none → sectionFor md.data m = none)
    ∧ (∀ (md : String) (m : String) (start : Nat), m ∈ SECTION_MARKERS →
        indexFrom md.data m.data 0 = some start →
        indexFrom md.data "\n## ".data (start + 3) = none →
        sectionFor md.data m = some (md.data.drop start))
    ∧ (∀ (md : String) (m : String) (start nextIdx : Nat), m ∈ SECTION_MARKERS →
        indexFrom md.data m.data 0 = some start →
        indexFrom md.data "\n## ".data (start + 3) = some nextIdx →
        sectionFor md.data m = some ((md.data.take nextIdx).drop start))
    ∧ (∀ md : String, (∀ m ∈ SECTION_MARKERS, indexFrom md.data m.data 0 = none) →
        slice_sections md = "") := by
  refine ⟨fun _ => rfl, ?_, ?_, ?_, ?_⟩
  · intro md m _ h
    rw [sectionFor, h]
  · intro md m start _ h hn
    simp [sectionFor, h, hn]
  · intro md m start nextIdx _ h hn
    simp [sectionFor, h, hn]
  · intro md h
    rw [slice_sections]
    have : SECTION_MARKERS.filterMap (sectionFor md.data) = [] := by
      rw [List.filterMap_eq_nil_iff]
      intro m hm
      rw [sectionFor, h m hm]
    rw [this]
    rfl

/-- Witness for C6: a document containing none of the section markers
slices to the empty string, and on a document holding the first marker
followed by another top-level header, the section stops right before that
header. -/
theorem c6_witness :
    slice_sections "# Intro\nno section headers" = "" ∧
    sectionFor ("x\n" ++ "## ðŸ’» Software Engineering New Grad Roles" ++ "\nrow1\n## Other").data
        "## ðŸ’» Software Engineering New Grad Roles" =
      some ("## ðŸ’» Software Engineering New Grad Roles" ++ "\nrow1").data :=
  ⟨c6_slice_sections_sound.2.2.2.2 "# Intro\nno section headers" (by decide),
   by
    rw [c6_slice_sections_sound.2.2.2.1 _ _ 2 50 (by decide) (by decide) (by decide)]
    decide⟩

/-- C7: the dedup ledger round-trips — saving a set and loading it back
yields the set; loading a missing file yields the empty set; the saved
artifact is sorted; and it is independent of the order in which the urls
were inserted (any two permutations of the insertions save identically). -/
theorem c7_ledger_roundtrip :
    (∀ S : Finset String, load_seen (some (save_seen S)) = S)
    ∧ load_seen none = ∅
    ∧ (∀ S : Finset String, (save_seen S).Sorted (· ≤ ·))
    ∧ (∀ l₁ l₂ : List String, l₁.Perm l₂ → save_seen l₁.toFinset = save_seen l₂.toFinset) := by
  refine ⟨?_, rfl, ?_, ?_⟩
  · intro S
    simp [load_seen, save_seen, Finset.sort_toFinset]
  · intro S
    exact Finset.sort_sorted _ S
  · intro l₁ l₂ h
    rw [List.toFinset_eq_of_perm l₁ l₂ h]

/-- Witness for C7: two insertion orders of the same urls persist the
same sorted artifact. -/
theorem c7_witness :
    save_seen ["b", "a", "a"].toFinset = save_seen ["a", "b", "a"].toFinset :=
  c7_ledger_roundtrip.2.2.2 ["b", "a", "a"] ["a", "b", "a"] (by decide)

/-! ## Publish-flow lemmas -/

/-- The in-memory set after the publish loop is the loaded set plus the
urls of the records published before the run ended. -/
theorem publishLoop_fst (co : Job → Bool) (seen : Finset String) (items : List Job) :
    (publishLoop co seen items).1 =
      seen ∪ ((publishedPrefix co items).map (fun j => j.url.getD "")).toFinset := by
  induction items generalizing seen with
  | nil => simp [publishLoop, publishedPrefix]
  | cons j rest ih =>
      by_cases h : co j
      · simp [publishLoop, publishedPrefix, h, ih, Finset.insert_union, Finset.union_insert]
      · simp [publishLoop, publishedPrefix, h]

/-- The publish loop aborts exactly when some create call in the list
fails. -/
theorem publishLoop_snd (co : Job → Bool) (seen : Finset String) (items : List Job) :
    (publishLoop co seen items).2 = items.any (fun j => !co j) := by
  induction items generalizing seen with
  | nil => simp [publishLoop]
  | cons j rest ih => by_cases h : co j <;> simp [publishLoop, h, ih]

/-- When every create call succeeds, every record of the list is
published. -/
theorem publishedPrefix_all (co : Job → Bool) (items : List Job)
    (h : ∀ j ∈ items, co j = true) : publishedPrefix co items = items := by
  induction items with
  | nil => rfl
  | cons j rest ih =>
      rw [publishedPrefix, if_pos (h j (List.mem_cons_self j rest)),
        ih (fun x hx => h x (List.mem_cons_of_mem j hx))]

/-- Published records come from the publish list. -/
theorem mem_of_mem_publishedPrefix (co : Job → Bool) :
    ∀ (items : List Job) (j : Job), j ∈ publishedPrefix co items → j ∈ items := by
  intro items
  induction items with
  | nil =>
      intro j h
      simp [publishedPrefix] at h
  | cons a rest ih =>
      intro j h
      by_cases hc : co a
      · rw [publishedPrefix, if_pos hc] at h
        rcases List.mem_cons.mp h with rfl | h
        · exact List.mem_cons_self _ _
        · exact List.mem_cons_of_mem _ (ih j h)
      · rw [publishedPrefix, if_neg hc] at h
        cases h

/-- Characterization of the publish filter of `main`: a record is kept
exactly when it comes from the extracted list, has a nonempty url not in
the loaded ledger, and its location passes the classifier. -/
theorem mem_selectJobs_iff {seen : Finset String} {jobs : List Job} {j : Job} :
    j ∈ selectJobs seen jobs ↔
      j ∈ jobs ∧ ∃ u, j.url = some u ∧ u ≠ "" ∧ u ∉ seen ∧
        looks_like_nyc j.location = true := by
  rw [selectJobs, List.mem_filter]
  constructor
  · rintro ⟨hj, hp⟩
    refine ⟨hj, ?_⟩
    rcases hurl : j.url with _ | u
    · rw [hurl] at hp
      simp at hp
    · rw [hurl] at hp
      simp at hp
      exact ⟨u, rfl, hp.1.1, hp.1.2, hp.2⟩
  · rintro ⟨hj, u, hurl, hne, hnotin, hnyc⟩
    refine ⟨hj, ?_⟩
    rw [hurl]
    simp [hne, hnotin, hnyc]

/-! ## Publish-flow claims -/

/-- C2 counterexample: no title-based disqualification exists in the
source.  Under any reading by which `"PhD Student Researcher"` carries a
degree-program marker, the claim's filter (which skips such a record)
disagrees with the source's filter, which keeps and publishes the record. -/
theorem c2_counterexample :
    ¬ ∃ disq : String → Bool, disq "PhD Student Researcher" = true ∧
      ∀ (seen : Finset String) (jobs : List Job),
        selectJobs seen jobs = selectJobsSpec disq seen jobs := by
  rintro ⟨disq, hd, hall⟩
  have h := hall ∅ [phdJob]
  have h1 : selectJobs ∅ [phdJob] = [phdJob] := by decide
  have h2 : selectJobsSpec disq ∅ [phdJob] = [] := by
    simp [selectJobsSpec, phdJob, hd]
  rw [h1, h2] at h
  exact List.cons_ne_nil _ _ h

/-- C2 (amended): a record is published exactly when it has a nonempty
url, the url is not already in the loaded ledger, and the classifier
accepts its location — the source applies no title-based check; a record
with no link is excluded from publishing, and every url persisted by a
completed run comes either from the prior ledger or from a record that
passed this filter, so a linkless row never reaches the ledger. -/
theorem c2_publish_filter :
    (∀ (seen : Finset String) (jobs : List Job) (j : Job),
        j ∈ selectJobs seen jobs ↔
          j ∈ jobs ∧ ∃ u, j.url = some u ∧ u ≠ "" ∧ u ∉ seen ∧
            looks_like_nyc j.location = true)
    ∧ (∀ (seen : Finset String) (jobs : List Job) (j : Job),
        j.url = none → j ∉ selectJobs seen jobs)
    ∧ (∀ (file : Option (List String)) (jobsAll : List Job)
        (createOk notifyOk : Job → Bool) (out : List String),
        runPublishFlow file jobsAll createOk notifyOk = some out →
        ∀ u ∈ out, u ∈ load_seen file ∨
          ∃ j ∈ selectJobs (load_seen file) jobsAll, j.url = some u) := by
  refine ⟨fun _ _ _ => mem_selectJobs_iff, ?_, ?_⟩
  · intro seen jobs j hurl hmem
    obtain ⟨-, u, hu, -⟩ := mem_selectJobs_iff.mp hmem
    rw [hurl] at hu
    cases hu
  · intro file jobsAll co no out hrun u hu
    simp only [runPublishFlow] at hrun
    by_cases habort : (publishLoop co (load_seen file)
        (selectJobs (load_seen file) jobsAll)).2
    · rw [if_pos habort] at hrun
      left
      rw [hrun, load_seen]
      exact List.mem_toFinset.mpr hu
    · rw [if_neg habort, Option.some.injEq] at hrun
      have hu2 : u ∈ (publishLoop co (load_seen file)
          (selectJobs (load_seen file) jobsAll)).1 := by
        rw [← hrun, save_seen] at hu
        exact (Finset.mem_sort (fun x1 x2 => x1 ≤ x2)).mp hu
      rw [publishLoop_fst, Finset.mem_union] at hu2
      rcases hu2 with hu2 | hu2
      · exact Or.inl hu2
      · right
        rw [List.mem_toFinset, List.mem_map] at hu2
        obtain ⟨j, hj, hju⟩ := hu2
        have hjsel := mem_of_mem_publishedPrefix co _ j hj
        refine ⟨j, hjsel, ?_⟩
        obtain ⟨-, u', hu', -⟩ := mem_selectJobs_iff.mp hjsel
        rw [hu'] at hju ⊢
        rw [Option.getD_some] at hju
        rw [hju]

/-- Witness for C2 (amended): a record with no anchor in its link cell is
not selected for publishing. -/
theorem c2_witness : noUrlJob ∉ selectJobs ∅ [noUrlJob] :=
  c2_publish_filter.2.1 ∅ [noUrlJob] noUrlJob rfl

/-- C1 counterexample: with an empty prior ledger and two qualifying
records, when the first create call succeeds and the second raises, the
first record was published before the run ended, yet the process aborts
before `save_seen` and the persisted ledger file is left unwritten — the
persisted set misses the published url `"u1"`, contradicting the claim
that the set persisted at process end equals the loaded set plus every
published url even when a create call fails partway. -/
theorem c1_counterexample :
    publishedPrefix c1createOk
        (selectJobs (load_seen none) [c1job1, c1job2]) = [c1job1] ∧
    c1job1.url = some "u1" ∧
    runPublishFlow none [c1job1, c1job2] c1createOk (fun _ => true) = none ∧
    "u1" ∉ load_seen (runPublishFlow none [c1job1, c1job2] c1createOk (fun _ => true)) := by
  decide

/-- C1 (amended): the ledger is written exactly once, after the loop,
when every create call succeeds — the persisted set is then the loaded
set plus the url of every selected record, independently of notification
failures, which are swallowed; but when some create call fails partway,
the exception propagates before persistence and the ledger file is left
exactly as it was. -/
theorem c1_ledger_persistence :
    (∀ (file : Option (List String)) (jobsAll : List Job)
        (createOk notifyOk : Job → Bool),
        (∀ j ∈ selectJobs (load_seen file) jobsAll, createOk j = true) →
        runPublishFlow file jobsAll createOk notifyOk =
          some (save_seen (load_seen file ∪
            ((selectJobs (load_seen file) jobsAll).map
              (fun j => j.url.getD "")).toFinset)))
    ∧ (∀ (file : Option (List String)) (jobsAll : List Job)
        (createOk notifyOk : Job → Bool),
        (∃ j ∈ selectJobs (load_seen file) jobsAll, createOk j = false) →
        runPublishFlow file jobsAll createOk notifyOk = file)
    ∧ (∀ (file : Option (List String)) (jobsAll : List Job)
        (createOk n₁ n₂ : Job → Bool),
        runPublishFlow file jobsAll createOk n₁ =
          runPublishFlow file jobsAll createOk n₂) := by
  refine ⟨?_, ?_, fun _ _ _ _ _ => rfl⟩
  · intro file jobsAll co no h
    have hano : (publishLoop co (load_seen file)
        (selectJobs (load_seen file) jobsAll)).2 = false := by
      rw [publishLoop_snd, List.any_eq_false]
      intro j hj
      simp [h j hj]
    simp only [runPublishFlow, hano, Bool.false_eq_true, if_false]
    rw [publishLoop_fst, publishedPrefix_all co _ h]
  · intro file jobsAll co no h
    have hab : (publishLoop co (load_seen file)
        (selectJobs (load_seen file) jobsAll)).2 = true := by
      rw [publishLoop_snd, List.any_eq_true]
      obtain ⟨j, hj, hcj⟩ := h
      exact ⟨j, hj, by simp [hcj]⟩
    simp only [runPublishFlow, hab, if_true]

/-- Witness for C1 (amended): a run in which every create call succeeds
persists the loaded set plus the published url, once, at the end. -/
theorem c1_witness :
    runPublishFlow none [c1job1] (fun _ => true) (fun _ => true) =
      some (save_seen (load_seen none ∪
        ((selectJobs (load_seen none) [c1job1]).map
          (fun j => j.url.getD "")).toFinset)) :=
  c1_ledger_persistence.1 none [c1job1] (fun _ => true) (fun _ => true)
    (fun _ _ => rfl)

/-- C8: in the age-refresh flow, a remote record with a usable stored
source url matching some extracted record has its age overwritten with
that record's freshly computed `age_days` when the update call succeeds;
the match is the first extracted record sharing the url, a match exists
whenever some record shares the url, and a record matching no current row
is classified not-found; the flow returns the refreshed pages and the
three reported counts, and every page is accounted for by exactly one
outcome (updated, not-found, error, or silently skipped), so the run
never fails. -/
theorem c8_age_refresh :
    (∀ (jobs : List Job) (updateOk : String → Bool) (p : NotionPage)
        (u : String) (j : Job),
        pageSourceUrl p = some u →
        find_matching_github_job u jobs = some j →
        updateOk p.id = true →
        refreshPage jobs updateOk p = { p with age := j.age_days })
    ∧ (∀ (u : String) (jobs : List Job) (j : Job),
        find_matching_github_job u jobs = some j → j ∈ jobs ∧ j.url = some u)
    ∧ (∀ (u : String) (jobs : List Job),
        (∃ j ∈ jobs, j.url = some u) →
        ∃ j, find_matching_github_job u jobs = some j)
    ∧ (∀ (jobs : List Job) (updateOk : String → Bool) (p : NotionPage)
        (u : String),
        pageSourceUrl p = some u → find_matching_github_job u jobs = none →
        classifyPage jobs updateOk p = PageResult.notFound)
    ∧ (∀ (pages : List NotionPage) (jobs : List Job) (updateOk : String → Bool),
        (update_all_pages_age pages jobs updateOk).1 =
          pages.map (refreshPage jobs updateOk))
    ∧ (∀ (pages : List NotionPage) (jobs : List Job) (updateOk : String → Bool),
        (update_all_pages_age pages jobs updateOk).2.1 +
          (update_all_pages_age pages jobs updateOk).2.2.1 +
          (update_all_pages_age pages jobs updateOk).2.2.2 +
          pages.countP (fun p => classifyPage jobs updateOk p == PageResult.skip) =
          pages.length) := by
  refine ⟨?_, ?_, ?_, ?_, fun _ _ _ => rfl, ?_⟩
  · intro jobs updateOk p u j h1 h2 h3
    simp [refreshPage, classifyPage, h1, h2, h3]
  · intro u jobs j h
    refine ⟨List.mem_of_find?_eq_some h, ?_⟩
    have hp := List.find?_some h
    simpa using hp
  · intro u jobs h
    rcases hf : find_matching_github_job u jobs with _ | j
    · rw [find_matching_github_job, List.find?_eq_none] at hf
      obtain ⟨j, hj, hju⟩ := h
      exact absurd (by simp [hju]) (hf j hj)
    · exact ⟨j, rfl⟩
  · intro jobs updateOk p u h1 h2
    simp [classifyPage, h1, h2]
  · intro pages jobs updateOk
    simp only [update_all_pages_age]
    induction pages with
    | nil => simp
    | cons p ps ih =>
        simp only [List.countP_cons, List.length_cons]
        cases h : classifyPage jobs updateOk p <;> simp [h] <;> omega

/-- Witness for C8: a stale remote record pointing at a current row's url
gets that row's fresh age. -/
theorem c8_witness :
    refreshPage [c8job] (fun _ => true) c8page = { c8page with age := "3d" } :=
  c8_age_refresh.1 [c8job] (fun _ => true) c8page "https://x" c8job
    (by decide) (by decide) rfl

end Scraper
